import Mathlib

/-!
Shallow embedding of `src/carton/cart.py` (django-carton): a session-backed
shopping cart.  Python dicts are modelled as insertion-ordered association
lists with unique keys, Python `Decimal` as `Rat`, Python ints as `Int`, and
the external collaborators (session store, product catalog, simplejson) at
the structural level the module relies on.
-/

namespace Carton

/-- Python scalar values usable as variant-attribute values (the
JSON-serializable scalars the cart's keys can carry). -/
inductive PyVal : Type where
  | intV (i : Int)
  | strV (s : String)
deriving DecidableEq

/-- Python ordering on attribute values: ints by numeric order, strings by
code-point lexicographic order.  The cross-constructor cases are an arbitrary
tie-break: Python 3 would raise there, but `sorted` in `_dict2key` never
compares two values because the dict's attribute names are distinct. -/
def pyValLEb : PyVal → PyVal → Bool
  | .intV a, .intV b => decide (a ≤ b)
  | .intV _, .strV _ => true
  | .strV _, .intV _ => false
  | .strV a, .strV b => decide (a.data ≤ b.data)

/-- Python tuple comparison on (attribute name, value) pairs, as used by
`sorted(dct.items())`: lexicographic, names first. -/
def pairLEb (x y : String × PyVal) : Bool :=
  if x.1 = y.1 then pyValLEb x.2 y.2 else decide (x.1.data < y.1.data)

/-- Propositional form of the pair comparison, for the sorting lemmas. -/
def pairLE (x y : String × PyVal) : Prop := pairLEb x y = true

instance : DecidableRel pairLE := fun x y => instDecidableEqBool (pairLEb x y) true

instance : IsTrans (String × PyVal) pairLE where
  trans := by
    rintro ⟨a, va⟩ ⟨b, vb⟩ ⟨c, vc⟩ h1 h2
    unfold pairLE pairLEb at *
    by_cases hab : a = b
    · subst hab
      rw [if_pos rfl] at h1
      by_cases hbc : a = c
      · subst hbc
        rw [if_pos rfl] at h2 ⊢
        cases va <;> cases vb <;> cases vc <;>
          simp_all only [pyValLEb, decide_eq_true_eq, Bool.false_eq_true] <;>
          first
            | omega
            | exact le_trans h1 h2
      · rw [if_neg hbc] at h2 ⊢
        exact h2
    · by_cases hbc : b = c
      · subst hbc
        rw [if_neg hab] at h1 ⊢
        exact h1
      · rw [if_neg hab, decide_eq_true_eq] at h1
        rw [if_neg hbc, decide_eq_true_eq] at h2
        have hlt : a.data < c.data := lt_trans h1 h2
        have hac : ¬ a = c := by
          intro h; subst h; exact absurd h2 (lt_asymm h1)
        rw [if_neg hac, decide_eq_true_eq]
        exact hlt

instance : IsTotal (String × PyVal) pairLE where
  total := by
    rintro ⟨a, va⟩ ⟨b, vb⟩
    unfold pairLE pairLEb
    by_cases hab : a = b
    · subst hab
      rw [if_pos rfl, if_pos rfl]
      cases va <;> cases vb <;> simp [pyValLEb]
      · omega
      · exact le_total _ _
    · have hba : ¬ b = a := fun h => hab h.symm
      have hd : ¬ a.data = b.data := fun h => hab (String.ext h)
      rw [if_neg hab, if_neg hba]
      simp only [decide_eq_true_eq]
      rcases lt_trichotomy a.data b.data with h | h | h
      · exact Or.inl h
      · exact absurd h hd
      · exact Or.inr h

instance : IsAntisymm (String × PyVal) pairLE where
  antisymm := by
    rintro ⟨a, va⟩ ⟨b, vb⟩ h1 h2
    unfold pairLE pairLEb at h1 h2
    by_cases hab : a = b
    · subst hab
      rw [if_pos rfl] at h1 h2
      have hv : va = vb := by
        cases va <;> cases vb <;>
          simp_all only [pyValLEb, decide_eq_true_eq, Bool.false_eq_true,
            PyVal.intV.injEq, PyVal.strV.injEq]
        · omega
        · exact String.ext (le_antisymm h1 h2)
      rw [hv]
    · have hba : ¬ b = a := fun h => hab h.symm
      rw [if_neg hab, decide_eq_true_eq] at h1
      rw [if_neg hba, decide_eq_true_eq] at h2
      exact absurd h2 (lt_asymm h1)

/-- A Python dict: insertion-ordered association list with unique keys. -/
def pyDictSet {κ ν : Type} [DecidableEq κ] (d : List (κ × ν)) (k : κ) (v : ν) :
    List (κ × ν) :=
  if d.any (fun kv => kv.1 = k) then
    d.map (fun kv => if kv.1 = k then (kv.1, v) else kv)
  else d ++ [(k, v)]

/-- Python dict lookup, `d[k]`, as an option. -/
def pyDictGet {κ ν : Type} [DecidableEq κ] (d : List (κ × ν)) (k : κ) : Option ν :=
  (d.find? (fun kv => kv.1 = k)).map Prod.snd

/-- Python `k in d` on a dict. -/
def pyDictHasKey {κ ν : Type} [DecidableEq κ] (d : List (κ × ν)) (k : κ) : Bool :=
  d.any (fun kv => kv.1 = k)

/-- Python `del d[k]` on a dict. -/
def pyDictDel {κ ν : Type} [DecidableEq κ] (d : List (κ × ν)) (k : κ) :
    List (κ × ν) :=
  d.filter (fun kv => !(kv.1 = k))

/-- In-place mutation of the value stored under one key (Python mutates the
object held in the dict, e.g. `d[k].quantity += n`). -/
def pyDictMap1 {κ ν : Type} [DecidableEq κ] (d : List (κ × ν)) (k : κ)
    (f : ν → ν) : List (κ × ν) :=
  d.map (fun kv => if kv.1 = k then (kv.1, f kv.2) else kv)

/-- Building a dict from a sequence of pairs, Python's
dict-comprehension over pairs. -/
def pyDictOfPairs {κ ν : Type} [DecidableEq κ] (ps : List (κ × ν)) : List (κ × ν) :=
  ps.foldl (fun d kv => pyDictSet d kv.1 kv.2) []

/-- A Python keyword-arguments dict: attribute name to value. -/
abbrev KeyDict := List (String × PyVal)

/-- A canonical line key: the sorted tuple `_dict2key` produces. -/
abbrev LineKey := List (String × PyVal)

/-- Source line 11-12: `_dict2key(dct) = tuple(sorted(dct.items()))`. -/
def _dict2key (dct : KeyDict) : LineKey :=
  List.insertionSort pairLE dct

/-- A catalog entity: identified by its primary key.  `active` stands for an
arbitrary further model field that a configured product lookup may filter
on. -/
structure Product where
  pk : Int
  active : Bool
deriving DecidableEq

/-- Source lines 15-38, class CartItem.  `quantity` is an `int`, `price` a
`Decimal` (modelled exactly by `Rat`).  `extra` holds the plain Python
attributes that deserialization injects with `val.__dict__.update(item[
'key'])`; it is empty for a freshly constructed item. -/
structure CartItem where
  product : Product
  quantity : Int
  price : Rat
  extra : KeyDict
deriving DecidableEq

/-- CartItem.__init__ (lines 19-22): `int(quantity)` and `Decimal(price)` are
identities on the already-converted values this module passes in. -/
def CartItem.init (product : Product) (quantity : Int) (price : Rat) : CartItem :=
  { product := product, quantity := quantity, price := price, extra := [] }

/-- The wire shape of CartItem.to_dict (lines 27-31). -/
structure VRecord where
  quantity : Int
  price : Rat
deriving DecidableEq

/-- CartItem.to_dict (lines 27-31). -/
def CartItem.to_dict (it : CartItem) : VRecord :=
  { quantity := it.quantity, price := it.price }

/-- CartItem.subtotal (lines 33-38): `self.price * self.quantity`. -/
def CartItem.subtotal (it : CartItem) : Rat :=
  it.price * (it.quantity : Rat)

/-- One serialized cart record: `{'key': {...}, 'value': {...}}`
(line 157). -/
structure SRecord where
  key : KeyDict
  value : VRecord
deriving DecidableEq

/-- The text stored under the session key, described structurally: the empty
string (the only falsy `str`), a well-formed JSON array of cart records as
produced by `sj.dumps` on line 158, the literal two-character text of an
empty JSON object, or any other text that fails to decode. -/
inductive StoredText : Type where
  | emptyStr
  | jsonArr (rs : List SRecord)
  | emptyObjText
  | malformed
deriving DecidableEq

/-- Python `s or d` on strings: the empty string is the only falsy string
(line 50 applies this before decoding). -/
def strOr (s d : StoredText) : StoredText :=
  if s = .emptyStr then d else s

/-- The top-level value `sj.loads` can return here. -/
inductive JsonTop : Type where
  | arr (rs : List SRecord)
  | emptyObj
deriving DecidableEq

/-- Fuel-based floor of the base-2 logarithm (0 on inputs below 2); the
fuel `n` always suffices since the argument halves each step. -/
def natLog2Aux : Nat → Nat → Nat
  | 0, _ => 0
  | fuel+1, n => if n ≤ 1 then 0 else natLog2Aux fuel (n / 2) + 1

def natLog2 (n : Nat) : Nat := natLog2Aux n n

/-- Whether a/b is at least 2^e, for positive naturals a and b, by cross
multiplication. -/
def gePow2 (a b : Nat) (e : Int) : Bool :=
  if 0 ≤ e then b * 2 ^ e.toNat ≤ a else b ≤ a * 2 ^ (-e).toNat

/-- Round N/D to the nearest natural, ties to even. -/
def roundHalfEven (N D : Nat) : Nat :=
  let q := N / D
  let r := N % D
  if 2 * r < D then q
  else if D < 2 * r then q + 1
  else if q % 2 = 0 then q else q + 1

/-- The binary64 value nearest to a rational: round to nearest, ties to
even, at 53 significant bits.  The exponent range is idealized as unbounded
(no overflow, infinity or subnormal handling), which agrees with binary64
at the magnitudes cart prices take. -/
def float64OfRat (q : Rat) : Rat :=
  if q.num = 0 then 0
  else
    let a := q.num.natAbs
    let b := q.den
    let e0 : Int := (natLog2 a : Int) - (natLog2 b : Int)
    let e : Int := if gePow2 a b e0 then e0 else e0 - 1
    let s : Int := 52 - e
    let N := if 0 ≤ s then a * 2 ^ s.toNat else a
    let D := if 0 ≤ s then b else b * 2 ^ (-s).toNat
    let n := roundHalfEven N D
    let sgn : Int := if q.num < 0 then -1 else 1
    if 0 ≤ s then mkRat (sgn * n) (2 ^ s.toNat)
    else mkRat (sgn * (n * 2 ^ (-s).toNat)) 1

/-- What the decoder's number path recovers from a stored price: an
integer literal is parsed exactly (parse_int), while a fractional literal
is parsed as the nearest binary64 float, whose exact binary value
CartItem.__init__'s Decimal(price) then captures. -/
def loadsNum (q : Rat) : Rat :=
  if q.den = 1 then q else float64OfRat q

/-- Decoding one stored value record: the quantity is an integer literal,
parsed exactly; the price goes through the number path above. -/
def loadsVRecord (v : VRecord) : VRecord :=
  { quantity := v.quantity, price := loadsNum v.price }

/-- Decoding one stored cart record: key names and key values (strings and
ints) are recovered exactly; the value record's price may round. -/
def loadsSRecord (r : SRecord) : SRecord :=
  { key := r.key, value := loadsVRecord r.value }

/-- External collaborator: `simplejson.loads` on the texts this module can
meet, with its default options.  use_decimal defaults to true only for
dumps, not for loads, so a fractional number literal comes back as a
binary64 float while integer literals and strings are exact; the record
decoding above applies this to every element of a well-formed array.  The
empty string and malformed text raise a decode error. -/
def sjLoads : StoredText → Except Unit JsonTop
  | .emptyStr => .error ()
  | .jsonArr rs => .ok (.arr (rs.map loadsSRecord))
  | .emptyObjText => .ok (.emptyObj)
  | .malformed => .error ()

/-- Iterating the decoded top-level value as Python's `for item in rep`:
an array yields its records, an empty object iterates to nothing. -/
def JsonTop.toList : JsonTop → List SRecord
  | .arr rs => rs
  | .emptyObj => []

/-- External collaborator: the session store, a mutable mapping from string
keys to stored texts plus a `modified` flag. -/
structure Session where
  store : List (String × StoredText)
  modified : Bool
deriving DecidableEq

/-- Reading `session[k]` when present. -/
def Session.lookup (s : Session) (k : String) : Option StoredText :=
  pyDictGet s.store k

/-- Python `k in session`. -/
def Session.hasKey (s : Session) (k : String) : Bool :=
  pyDictHasKey s.store k

/-- Writing `session[k] = v`. -/
def Session.set (s : Session) (k : String) (v : StoredText) : Session :=
  { s with store := pyDictSet s.store k v }

/-- Modelled from the spec: `carton.settings` is not under src/; the spec
says the session key defaults to a configured constant. -/
def CART_SESSION_KEY : String := "CART"

/-- The exceptions the module can raise. -/
inductive PyError : Type where
  | invalidQuantity
  | missingPrice
  | nameError
deriving DecidableEq

/-- Source lines 41-59 onward, class Cart: the items dict (a Python dict from
line key to CartItem, insertion-ordered with unique keys), the session and
the session key. -/
structure Cart where
  items_dict : List (LineKey × CartItem)
  session : Session
  session_key : String
deriving DecidableEq

/-- The outcome of a mutating call on a cart object: a normal return with
the new object state, or a raised exception together with the object state
at raise time (Python mutates in place, so a raise surfaces whatever state
the object had reached). -/
inductive PyOutcome : Type where
  | ok (c : Cart)
  | exn (e : PyError) (c : Cart)
deriving DecidableEq

/-- The key both add (lines 100-101) and remove (lines 114-115) compute:
`kargs['_pk'] = product.pk; key = _dict2key(kargs)`. -/
def lineKeyOf (product : Product) (kargs : KeyDict) : LineKey :=
  _dict2key (pyDictSet kargs "_pk" (.intV product.pk))

/-- Cart.cart_serializable (lines 153-158): each entry becomes
`{'key': {k:v for k,v in key}, 'value': value.to_dict()}` and the list is
dumped to text. -/
def Cart.cart_serializable (c : Cart) : StoredText :=
  .jsonArr (c.items_dict.map (fun kv =>
    { key := pyDictOfPairs kv.1, value := kv.2.to_dict }))

/-- Cart.update_session (lines 85-90): store the serialized cart under the
session key and mark the session modified. -/
def Cart.update_session (c : Cart) : Cart :=
  { c with session :=
      { (c.session.set c.session_key c.cart_serializable) with modified := true } }

/-- Cart.add (lines 92-108). -/
def Cart.add (c : Cart) (product : Product) (price : Option Rat)
    (quantity : Int) (kargs : KeyDict) : PyOutcome :=
  if quantity < 1 then .exn .invalidQuantity c
  else
    let key := lineKeyOf product kargs
    if pyDictHasKey c.items_dict key then
      let d := pyDictMap1 c.items_dict key
        (fun it => { it with quantity := it.quantity + quantity })
      .ok (Cart.update_session { c with items_dict := d })
    else
      match price with
      | none => .exn .missingPrice c
      | some p =>
        let d := c.items_dict ++ [(key, CartItem.init product quantity p)]
        .ok (Cart.update_session { c with items_dict := d })

/-- Cart.remove (lines 110-118). -/
def Cart.remove (c : Cart) (product : Product) (kargs : KeyDict) : Cart :=
  let key := lineKeyOf product kargs
  if pyDictHasKey c.items_dict key then
    Cart.update_session { c with items_dict := pyDictDel c.items_dict key }
  else c

/-- Cart.remove_single as the source stands (lines 120-132): line 125 calls
`dict2key`, a name that is defined nowhere (the module-level helper is
`_dict2key`), so every call raises NameError before touching the items dict
or the session. -/
def Cart.remove_single (c : Cart) (product : Product) (kargs : KeyDict) :
    PyOutcome :=
  let _kargs := pyDictSet kargs "_pk" (.intV product.pk)
  .exn .nameError c

/-- Cart.remove_single as evidently intended (docstring line 122 and the
spec): the same body with the helper name corrected to `_dict2key`. -/
def Cart.remove_single_fixed (c : Cart) (product : Product) (kargs : KeyDict) :
    Cart :=
  let key := lineKeyOf product kargs
  match pyDictGet c.items_dict key with
  | none => c
  | some it =>
    if it.quantity ≤ 1 then
      Cart.update_session { c with items_dict := pyDictDel c.items_dict key }
    else
      let d := pyDictMap1 c.items_dict key
        (fun x => { x with quantity := x.quantity - 1 })
      Cart.update_session { c with items_dict := d }

/-- Cart.clear (lines 134-139). -/
def Cart.clear (c : Cart) : Cart :=
  Cart.update_session { c with items_dict := [] }

/-- Cart._items_gen (lines 141-144) materialized: the items in dict order. -/
def Cart._items_gen (c : Cart) : List CartItem :=
  c.items_dict.map Prod.snd

/-- Cart.items (lines 146-151). -/
def Cart.items (c : Cart) : List CartItem :=
  c._items_gen

/-- Cart.count (lines 164-166): sum of quantities. -/
def Cart.count (c : Cart) : Int :=
  (c._items_gen.map (fun it => it.quantity)).sum

/-- Cart.unique_count (lines 168-173): `len(self.items_dict)`. -/
def Cart.unique_count (c : Cart) : Nat :=
  c.items_dict.length

/-- Cart.is_empty (lines 175-177). -/
def Cart.is_empty (c : Cart) : Bool :=
  c.unique_count = 0

/-- Cart.products (lines 179-181). -/
def Cart.products (c : Cart) : List Product :=
  c._items_gen.map (fun it => it.product)

/-- Cart.total (lines 183-185): sum of subtotals, 0 on the empty sum. -/
def Cart.total (c : Cart) : Rat :=
  (c._items_gen.map CartItem.subtotal).sum

/-- get_queryset together with filter_products (lines 70-83): all catalog
products, narrowed by the configured lookup parameters when present. -/
def get_queryset (catalog : List Product) (lookup : Option (Product → Bool)) :
    List Product :=
  match lookup with
  | some test => catalog.filter test
  | none => catalog

/-- Reading `item['key']['_pk']` from one serialized record. -/
def recPk? (r : SRecord) : Option PyVal :=
  pyDictGet r.key "_pk"

/-- Line 51, `ids_in_cart = set(...)`: collect every record's `_pk` value; a
record without one raises KeyError. -/
def collectPks : List SRecord → Option (List PyVal)
  | [] => some []
  | r :: rest =>
    match recPk? r, collectPks rest with
    | some v, some vs => some (v :: vs)
    | _, _ => none

/-- Line 58, `val.__dict__.update(item['key'])`: each pair of the stored key
dict is written onto the item as a plain attribute.  Names hitting the typed
fields overwrite them when the stored value has the field's type ('quantity'
with an int, 'price' with an int); every other pair lands in `extra`.  (No
reachable serialized state carries those reserved names: Python keyword
syntax cannot pass them to add.) -/
def updItemAttr (acc : CartItem) (kv : String × PyVal) : CartItem :=
  match kv with
  | ("quantity", .intV n) => { acc with quantity := n }
  | ("price", .intV n) => { acc with price := (n : Rat) }
  | _ => { acc with extra := pyDictSet acc.extra kv.1 kv.2 }

/-- The whole attribute copy of line 58. -/
def dictUpdateItem (it : CartItem) (key : KeyDict) : CartItem :=
  key.foldl updItemAttr it

/-- Line 57 plus line 58: build the CartItem for one surviving record. -/
def mkLoadedItem (p : Product) (r : SRecord) : CartItem :=
  dictUpdateItem (CartItem.init p r.value.quantity r.value.price) r.key

/-- The loop of lines 53-59: keep the records whose `_pk` is among the pks
of the filtered queryset, resolve the product, rebuild the item and store it
under `_dict2key(item['key'])`. -/
def loadItems (qs : List Product) :
    List SRecord → List (LineKey × CartItem) → List (LineKey × CartItem)
  | [], acc => acc
  | r :: rest, acc =>
    match recPk? r with
    | none => loadItems qs rest acc
    | some pkv =>
      if pkv ∈ qs.map (fun p => PyVal.intV p.pk) then
        match qs.find? (fun p => PyVal.intV p.pk = pkv) with
        | some p =>
          loadItems qs rest
            (pyDictSet acc (_dict2key r.key) (mkLoadedItem p r))
        | none => loadItems qs rest acc
      else loadItems qs rest acc

/-- Cart.__init__ (lines 42-59).  When the session key is present the stored
text (with the empty string defaulted to an empty-object text, line 50) is
decoded; decode failure propagates uncaught, a record without a `_pk` entry
raises KeyError on line 51; otherwise the records are reconciled against the
filtered catalog queryset. -/
def Cart.init (session : Session) (session_key : Option String)
    (catalog : List Product) (lookup : Option (Product → Bool)) :
    Except Unit Cart :=
  let sk := session_key.getD CART_SESSION_KEY
  match Session.lookup session sk with
  | none => .ok { items_dict := [], session := session, session_key := sk }
  | some txt =>
    match sjLoads (strOr txt .emptyObjText) with
    | .error e => .error e
    | .ok top =>
      let rep := top.toList
      match collectPks rep with
      | none => .error ()
      | some ids =>
        let qs := (get_queryset catalog lookup).filter
          (fun p => decide (PyVal.intV p.pk ∈ ids))
        .ok { items_dict := loadItems qs rep [],
              session := session, session_key := sk }

/-- The spec's line invariant: every line present in the cart's mapping has
quantity at least 1. -/
def QtyInv (c : Cart) : Prop :=
  ∀ kv ∈ c.items_dict, 1 ≤ kv.2.quantity

instance (c : Cart) : Decidable (QtyInv c) :=
  inferInstanceAs (Decidable (∀ kv ∈ c.items_dict, 1 ≤ kv.2.quantity))

/-- What Python guarantees about the keyword arguments reaching add or
remove: the names are distinct, and cannot coincide with the named
parameters product, price, quantity of the call. -/
def kargsOK (kargs : KeyDict) : Prop :=
  (kargs.map Prod.fst).Nodup ∧
  ∀ a ∈ kargs.map Prod.fst, a ≠ "product" ∧ a ≠ "price" ∧ a ≠ "quantity"

/-- Cart states reachable from an empty cart by successful add calls (whose
product comes from the filtered catalog queryset) and remove calls. -/
inductive Reachable (catalog : List Product) (lookup : Option (Product → Bool)) :
    Cart → Prop where
  | empty (s : Session) (sk : String) :
      Reachable catalog lookup { items_dict := [], session := s, session_key := sk }
  | add (c c' : Cart) (p : Product) (pr : Option Rat) (q : Int) (kargs : KeyDict) :
      Reachable catalog lookup c → p ∈ get_queryset catalog lookup →
      kargsOK kargs → c.add p pr q kargs = .ok c' → Reachable catalog lookup c'
  | remove (c : Cart) (p : Product) (kargs : KeyDict) :
      Reachable catalog lookup c → kargsOK kargs →
      Reachable catalog lookup (c.remove p kargs)

/-- Well-formedness of one line key, relative to the products qs the
queryset can return: the key is a sorted tuple with distinct attribute
names, none of them a typed CartItem field name, and it holds a `_pk` entry
whose value is the primary key of some product of qs. -/
def lineKeyWF (qs : List Product) (k : LineKey) : Prop :=
  List.Sorted pairLE k ∧
  (k.map Prod.fst).Nodup ∧
  (∀ a ∈ k.map Prod.fst, a ≠ "quantity" ∧ a ≠ "price") ∧
  ∃ i : Int, ("_pk", PyVal.intV i) ∈ k ∧ i ∈ qs.map Product.pk

/-- Well-formedness of a cart's items dict: unique keys, each well formed. -/
def cartWF (qs : List Product) (c : Cart) : Prop :=
  (c.items_dict.map Prod.fst).Nodup ∧ ∀ kv ∈ c.items_dict, lineKeyWF qs kv.1

/-- The observable content of one line for the round-trip statement: its
key, quantity and price. -/
def lineView (kv : LineKey × CartItem) : LineKey × Int × Rat :=
  (kv.1, kv.2.quantity, kv.2.price)

/-- What one line looks like after a serialize-and-reload cycle: the key
and quantity survive exactly, the price passes through the decoder's
number path. -/
def loadedLineView (kv : LineKey × CartItem) : LineKey × Int × Rat :=
  (kv.1, kv.2.quantity, loadsNum kv.2.price)

/-- Concrete fixtures. -/
def p1 : Product := { pk := 1, active := true }

def p2 : Product := { pk := 2, active := false }

def p3 : Product := { pk := 3, active := true }

def catalog3 : List Product := [p1, p2, p3]

def onlyActive : Option (Product → Bool) := some (fun p => p.active)

def s0 : Session := { store := [], modified := false }

def c0 : Cart := { items_dict := [], session := s0, session_key := "CART" }

def keyA : LineKey := [("_pk", PyVal.intV 1)]

def itemA : CartItem := { product := p1, quantity := 2, price := 10, extra := [] }

def sessA : Session :=
  { store := [("CART",
      StoredText.jsonArr [{ key := keyA, value := { quantity := 2, price := 10 } }])],
    modified := true }

def cartA : Cart := { items_dict := [(keyA, itemA)], session := sessA, session_key := "CART" }

def blob3 : StoredText :=
  .jsonArr
    [{ key := [("_pk", PyVal.intV 1)], value := { quantity := 1, price := 10 } },
     { key := [("_pk", PyVal.intV 2)], value := { quantity := 1, price := 20 } },
     { key := [("_pk", PyVal.intV 3)], value := { quantity := 2, price := 30 } }]

def session3 : Session := { store := [("CART", blob3)], modified := false }

def cartC9 : Cart :=
  { items_dict :=
      [([("_pk", PyVal.intV 1)], { product := p1, quantity := 2, price := 10, extra := [] }),
       ([("_pk", PyVal.intV 3)], { product := p3, quantity := 1, price := 11 / 2, extra := [] })],
    session := s0, session_key := "CART" }

def keyB2 : LineKey := [("_pk", PyVal.intV 2)]

def itemB2 : CartItem := { product := p2, quantity := 1, price := 5, extra := [] }

def sessB2 : Session :=
  { store := [("CART",
      StoredText.jsonArr [{ key := keyB2, value := { quantity := 1, price := 5 } }])],
    modified := true }

def cartB2 : Cart := { items_dict := [(keyB2, itemB2)], session := sessB2, session_key := "CART" }

def itemP9 : CartItem :=
  { product := p1, quantity := 1, price := mkRat 999 100, extra := [] }

def sessP9 : Session :=
  { store := [("CART", StoredText.jsonArr
      [{ key := keyA, value := { quantity := 1, price := mkRat 999 100 } }])],
    modified := true }

def cartP9 : Cart := { items_dict := [(keyA, itemP9)], session := sessP9, session_key := "CART" }

def sessionES : Session := { store := [("CART", StoredText.emptyStr)], modified := false }

def sessionMF : Session := { store := [("CART", StoredText.malformed)], modified := false }

theorem dict2key_sorted (d : KeyDict) : List.Sorted pairLE (_dict2key d) :=
  List.sorted_insertionSort pairLE d

theorem dict2key_perm (d : KeyDict) : (_dict2key d).Perm d :=
  List.perm_insertionSort pairLE d

theorem dict2key_eq_of_perm (d1 d2 : KeyDict) (h : d1.Perm d2) :
    _dict2key d1 = _dict2key d2 :=
  List.eq_of_perm_of_sorted (((dict2key_perm d1).trans h).trans (dict2key_perm d2).symm)
    (dict2key_sorted d1) (dict2key_sorted d2)

theorem dict2key_of_sorted (k : LineKey) (h : List.Sorted pairLE k) :
    _dict2key k = k :=
  h.insertionSort_eq

/-- C7: the canonical line key is order independent: two calls of _dict2key
on the same set of (field, value) pairs, in any insertion order, yield equal
keys, and the key is a sorted tuple of exactly those pairs (hence hashable
and comparable). -/
theorem dict2key_order_independent (d1 d2 : KeyDict) (h : d1.Perm d2) :
    _dict2key d1 = _dict2key d2 ∧ List.Sorted pairLE (_dict2key d1) ∧
    (_dict2key d1).Perm d1 :=
  ⟨dict2key_eq_of_perm d1 d2 h, dict2key_sorted d1, dict2key_perm d1⟩

theorem dict2key_order_independent_witness :
    ([("size", PyVal.strV "M"), ("_pk", PyVal.intV 1)] : KeyDict).Perm
      [("_pk", PyVal.intV 1), ("size", PyVal.strV "M")] ∧
    (_dict2key [("size", PyVal.strV "M"), ("_pk", PyVal.intV 1)] =
      _dict2key [("_pk", PyVal.intV 1), ("size", PyVal.strV "M")] ∧
     List.Sorted pairLE (_dict2key [("size", PyVal.strV "M"), ("_pk", PyVal.intV 1)]) ∧
     (_dict2key [("size", PyVal.strV "M"), ("_pk", PyVal.intV 1)]).Perm
       [("size", PyVal.strV "M"), ("_pk", PyVal.intV 1)]) :=
  ⟨List.Perm.swap ("_pk", PyVal.intV 1) ("size", PyVal.strV "M") [],
   dict2key_order_independent _ _
     (List.Perm.swap ("_pk", PyVal.intV 1) ("size", PyVal.strV "M") [])⟩

/-- C1 (evidence of the code defect): remove_single never reaches the
decrement logic the claim describes; called on a cart holding product 1 at
quantity 2 it raises NameError, because line 125 calls dict2key while the
module only defines _dict2key. -/
theorem remove_single_raises_nameError :
    cartA.remove_single p1 [] = PyOutcome.exn PyError.nameError cartA := rfl

/-- C3: loading a stored cart whose records reference pks 1, 2 and 3 against
a filtered catalog retaining only 1 and 3 yields exactly the two lines keyed
on 1 and 3; the record for 2 is silently dropped, no error is raised, and
the session (stored blob included) is not rewritten. -/
theorem load_reconciles_silently :
    ∃ c, Cart.init session3 (some "CART") catalog3 onlyActive = .ok c ∧
      c.unique_count = 2 ∧
      c.items_dict.map Prod.fst =
        [[("_pk", PyVal.intV 1)], [("_pk", PyVal.intV 3)]] ∧
      c.session = session3 :=
  ⟨_, rfl, rfl, rfl, rfl⟩

/-- C10: a stored empty (falsy) string under the session key does not raise:
the text is defaulted to the empty-object text whose decoding iterates to no
records, so the cart loads empty; a genuinely malformed non-empty blob
instead propagates the decode error uncaught. -/
theorem falsy_blob_loads_empty :
    (∃ c, Cart.init sessionES (some "CART") catalog3 onlyActive = .ok c ∧
      c.items_dict = [] ∧ c.is_empty = true) ∧
    Cart.init sessionMF (some "CART") catalog3 onlyActive = .error () :=
  ⟨⟨_, rfl, rfl, rfl⟩, rfl⟩

/-- C9: total is the exact sum of price times quantity over all lines,
0 for an empty cart (the empty sum), and 25.50 on the cart holding the
lines (price 10.00, quantity 2) and (price 5.50, quantity 1). -/
theorem total_is_sum_of_subtotals :
    (∀ c : Cart, c.total =
      (c.items_dict.map (fun kv => kv.2.price * (kv.2.quantity : Rat))).sum) ∧
    (∀ c : Cart, c.items_dict = [] → c.total = 0) ∧
    cartC9.total = 51 / 2 := by
  refine ⟨?_, ?_, ?_⟩
  · intro c
    unfold Cart.total Cart._items_gen
    rw [List.map_map]
    rfl
  · intro c h
    simp [Cart.total, Cart._items_gen, h]
  · norm_num [Cart.total, Cart._items_gen, CartItem.subtotal, cartC9]

theorem total_is_sum_of_subtotals_witness :
    c0.items_dict = [] ∧ c0.total = 0 :=
  ⟨rfl, total_is_sum_of_subtotals.2.1 c0 rfl⟩

theorem pyDictGet_some_hasKey {κ ν : Type} [DecidableEq κ] {d : List (κ × ν)}
    {k : κ} {v : ν} (h : pyDictGet d k = some v) : pyDictHasKey d k = true := by
  cases hf : List.find? (fun kv => kv.1 = k) d with
  | none => simp [pyDictGet, hf] at h
  | some kv =>
    have hm : kv ∈ d := List.mem_of_find?_eq_some hf
    have hp : kv.1 = k := by simpa using List.find?_some hf
    simp only [pyDictHasKey, List.any_eq_true, decide_eq_true_eq]
    exact ⟨kv, hm, hp⟩

theorem pyDictHasKey_false_iff {κ ν : Type} [DecidableEq κ] {d : List (κ × ν)}
    {k : κ} : pyDictHasKey d k = false ↔ k ∉ d.map Prod.fst := by
  rw [← Bool.not_eq_true]
  simp [pyDictHasKey, List.any_eq_true, List.mem_map]

theorem pyDictGet_pyDictMap1 {κ ν : Type} [DecidableEq κ] (d : List (κ × ν))
    (k : κ) (f : ν → ν) :
    pyDictGet (pyDictMap1 d k f) k = (pyDictGet d k).map f := by
  induction d with
  | nil => rfl
  | cons kv rest ih =>
    by_cases hk : kv.1 = k
    · simp [pyDictGet, pyDictMap1, List.find?_cons, hk]
    · simpa [pyDictGet, pyDictMap1, List.find?_cons, hk] using ih

theorem keys_pyDictMap1 {κ ν : Type} [DecidableEq κ] (d : List (κ × ν))
    (k : κ) (f : ν → ν) :
    (pyDictMap1 d k f).map Prod.fst = d.map Prod.fst := by
  induction d with
  | nil => rfl
  | cons kv rest ih =>
    by_cases hk : kv.1 = k <;>
      simpa [pyDictMap1, hk] using ih

theorem length_pyDictMap1 {κ ν : Type} [DecidableEq κ] (d : List (κ × ν))
    (k : κ) (f : ν → ν) : (pyDictMap1 d k f).length = d.length :=
  List.length_map d _

theorem pyDictSet_cons_ne {κ ν : Type} [DecidableEq κ] (kv : κ × ν)
    (rest : List (κ × ν)) (k : κ) (v : ν) (hk : ¬ kv.1 = k) :
    pyDictSet (kv :: rest) k v = kv :: pyDictSet rest k v := by
  by_cases hr : (rest.any fun x => decide (x.1 = k)) = true
  · rw [pyDictSet, pyDictSet, if_pos hr,
      if_pos (by simp [List.any_cons, hk, hr]), List.map_cons, if_neg hk]
  · rw [pyDictSet, pyDictSet, if_neg hr,
      if_neg (by simp [List.any_cons, hk, hr]), List.cons_append]

theorem pyDictGet_pyDictSet_self {κ ν : Type} [DecidableEq κ] (d : List (κ × ν))
    (k : κ) (v : ν) : pyDictGet (pyDictSet d k v) k = some v := by
  induction d with
  | nil => simp [pyDictSet, pyDictGet]
  | cons kv rest ih =>
    by_cases hk : kv.1 = k
    · simp [pyDictSet, pyDictGet, List.find?_cons, List.any_cons, hk]
    · rw [pyDictSet_cons_ne kv rest k v hk]
      simpa [pyDictGet, List.find?_cons, hk] using ih

theorem Session.lookup_set_self (s : Session) (k : String) (v : StoredText) :
    (s.set k v).lookup k = some v :=
  pyDictGet_pyDictSet_self s.store k v

theorem update_session_items (c : Cart) :
    (Cart.update_session c).items_dict = c.items_dict := rfl

theorem pyDictGet_eq_of_mem_nodup {κ ν : Type} [DecidableEq κ]
    {d : List (κ × ν)} {k : κ} {v : ν} (hnd : (d.map Prod.fst).Nodup)
    (hm : (k, v) ∈ d) : pyDictGet d k = some v := by
  induction d with
  | nil => cases hm
  | cons kv rest ih =>
    rcases List.mem_cons.mp hm with he | ht
    · rw [← he]
      simp [pyDictGet, List.find?_cons]
    · have hk : ¬ kv.1 = k := by
        intro he
        have hkm : kv.1 ∈ rest.map Prod.fst := by
          rw [he]
          exact List.mem_map.mpr ⟨(k, v), ht, rfl⟩
        exact (List.nodup_cons.mp (by simpa using hnd)).1 hkm
      simp only [pyDictGet, List.find?_cons]
      have hdec : (decide (kv.1 = k)) = false := by simpa using hk
      rw [hdec]
      exact ih (List.nodup_cons.mp (by simpa using hnd)).2 ht

theorem pyDictHasKey_pyDictDel {κ ν : Type} [DecidableEq κ]
    (d : List (κ × ν)) (k : κ) : pyDictHasKey (pyDictDel d k) k = false := by
  rw [← Bool.not_eq_true]
  simp only [pyDictHasKey, pyDictDel, List.any_eq_true, decide_eq_true_eq]
  rintro ⟨kv, hkv, he⟩
  have := (List.mem_filter.mp hkv).2
  simp [he] at this

/-- C4: when the canonical key of (product, variant attributes) already has
a line in the cart, add increments that line's quantity by the given
quantity and keeps its price; the price argument plays no role (any two
price arguments give the same outcome), and no new line is created. -/
theorem add_existing_increments (c : Cart) (p : Product) (pr pr' : Option Rat)
    (q : Int) (kargs : KeyDict) (it : CartItem) (hq : 1 ≤ q)
    (hk : pyDictGet c.items_dict (lineKeyOf p kargs) = some it) :
    c.add p pr q kargs = c.add p pr' q kargs ∧
    ∃ c', c.add p pr q kargs = .ok c' ∧
      pyDictGet c'.items_dict (lineKeyOf p kargs) =
        some { it with quantity := it.quantity + q } ∧
      c'.unique_count = c.unique_count := by
  have hnl : ¬ q < 1 := by omega
  have hhk := pyDictGet_some_hasKey hk
  constructor
  · simp only [Cart.add, if_neg hnl, hhk, if_true]
  · refine ⟨Cart.update_session
        { c with
          items_dict := pyDictMap1 c.items_dict (lineKeyOf p kargs)
              (fun x => { x with quantity := x.quantity + q }) },
      ?_, ?_, ?_⟩
    · simp only [Cart.add, if_neg hnl, hhk, if_true]
    · simp only [update_session_items]
      rw [pyDictGet_pyDictMap1, hk]
      rfl
    · simp only [Cart.unique_count, update_session_items]
      exact length_pyDictMap1 c.items_dict (lineKeyOf p kargs) _

theorem add_existing_increments_witness :
    c0.add p1 (some 10) 2 [] = .ok cartA ∧
    (1 : Int) ≤ 3 ∧
    pyDictGet cartA.items_dict (lineKeyOf p1 []) = some itemA ∧
    (cartA.add p1 none 3 [] = cartA.add p1 (some 99) 3 [] ∧
     ∃ c', cartA.add p1 none 3 [] = .ok c' ∧
       pyDictGet c'.items_dict (lineKeyOf p1 []) =
         some { itemA with quantity := itemA.quantity + 3 } ∧
       c'.unique_count = cartA.unique_count) :=
  ⟨rfl, by decide, rfl,
   add_existing_increments cartA p1 none (some 99) 3 [] itemA (by decide) rfl⟩

/-- C5: add raises InvalidQuantity exactly when the given quantity is below
1, raises MissingPrice exactly when the quantity is fine but the key is new
and no price was given, and every raising call surfaces the unchanged cart
state: no line is created or modified and no session write happens. -/
theorem add_error_conditions (c : Cart) (p : Product) (pr : Option Rat)
    (q : Int) (kargs : KeyDict) :
    (c.add p pr q kargs = .exn .invalidQuantity c ↔ q < 1) ∧
    (c.add p pr q kargs = .exn .missingPrice c ↔
      1 ≤ q ∧ pyDictHasKey c.items_dict (lineKeyOf p kargs) = false ∧
      pr = none) ∧
    (∀ e c2, c.add p pr q kargs = .exn e c2 → c2 = c) := by
  by_cases h1 : q < 1
  · have heq : c.add p pr q kargs = .exn .invalidQuantity c := by
      simp only [Cart.add, if_pos h1]
    refine ⟨⟨fun _ => h1, fun _ => heq⟩,
      ⟨fun he => ?_, fun hr => absurd hr.1 (by omega)⟩, fun e c2 he => ?_⟩
    · rw [heq] at he
      simp at he
    · rw [heq] at he
      injection he with h2 h3
      exact h3.symm
  · by_cases h2 : pyDictHasKey c.items_dict (lineKeyOf p kargs) = true
    · have heq : c.add p pr q kargs = .ok (Cart.update_session
          { c with
            items_dict := pyDictMap1 c.items_dict (lineKeyOf p kargs)
                (fun x => { x with quantity := x.quantity + q }) }) := by
        simp only [Cart.add, if_neg h1, h2, if_true]
      refine ⟨⟨fun he => ?_, fun hq => absurd hq h1⟩,
        ⟨fun he => ?_, fun hr => ?_⟩, fun e c2 he => ?_⟩
      · rw [heq] at he
        cases he
      · rw [heq] at he
        cases he
      · rw [hr.2.1] at h2
        cases h2
      · rw [heq] at he
        cases he
    · have h2f : pyDictHasKey c.items_dict (lineKeyOf p kargs) = false := by
        simpa using h2
      cases pr with
      | none =>
        have heq : c.add p none q kargs = .exn .missingPrice c := by
          simp only [Cart.add, if_neg h1, h2f, Bool.false_eq_true, if_false]
        refine ⟨⟨fun he => ?_, fun hq => absurd hq h1⟩,
          ⟨fun _ => ⟨by omega, h2f, rfl⟩, fun _ => heq⟩, fun e c2 he => ?_⟩
        · rw [heq] at he
          simp at he
        · rw [heq] at he
          injection he with h3 h4
          exact h4.symm
      | some pv =>
        have heq : c.add p (some pv) q kargs = .ok (Cart.update_session
            { c with
              items_dict := c.items_dict ++
                  [(lineKeyOf p kargs, CartItem.init p q pv)] }) := by
          simp only [Cart.add, if_neg h1, h2f, Bool.false_eq_true, if_false]
        refine ⟨⟨fun he => ?_, fun hq => absurd hq h1⟩,
          ⟨fun he => ?_, fun hr => ?_⟩, fun e c2 he => ?_⟩
        · rw [heq] at he
          cases he
        · rw [heq] at he
          cases he
        · cases hr.2.2
        · rw [heq] at he
          cases he

theorem add_error_conditions_witness :
    c0.add p1 (some 5) 0 [] = .exn .invalidQuantity c0 ∧
    c0.add p1 none 1 [] = .exn .missingPrice c0 :=
  ⟨(add_error_conditions c0 p1 (some 5) 0 []).1.mpr (by decide),
   (add_error_conditions c0 p1 none 1 []).2.1.mpr ⟨by decide, rfl, rfl⟩⟩

/-- C6: remove deletes the whole line and persists to the session when the
canonical key is present (the serialized cart is stored under the session
key and the session is marked modified), and is an error-free no-op when the
key is absent, leaving the cart, hence its lines, count and total,
unchanged. -/
theorem remove_deletes_or_noop (c : Cart) (p : Product) (kargs : KeyDict) :
    (pyDictHasKey c.items_dict (lineKeyOf p kargs) = true →
      (c.remove p kargs).items_dict =
        pyDictDel c.items_dict (lineKeyOf p kargs) ∧
      pyDictHasKey (c.remove p kargs).items_dict (lineKeyOf p kargs) = false ∧
      (c.remove p kargs).session.modified = true ∧
      (c.remove p kargs).session.lookup c.session_key =
        some (c.remove p kargs).cart_serializable) ∧
    (pyDictHasKey c.items_dict (lineKeyOf p kargs) = false →
      c.remove p kargs = c) := by
  constructor
  · intro h
    have hrw : c.remove p kargs = Cart.update_session
        { c with items_dict := pyDictDel c.items_dict (lineKeyOf p kargs) } := by
      simp only [Cart.remove, h, if_true]
    rw [hrw]
    exact ⟨rfl, pyDictHasKey_pyDictDel c.items_dict (lineKeyOf p kargs), rfl,
      Session.lookup_set_self c.session c.session_key _⟩
  · intro h
    simp only [Cart.remove, h, Bool.false_eq_true, if_false]

theorem remove_deletes_or_noop_witness :
    pyDictHasKey cartA.items_dict (lineKeyOf p1 []) = true ∧
    ((cartA.remove p1 []).items_dict =
       pyDictDel cartA.items_dict (lineKeyOf p1 []) ∧
     pyDictHasKey (cartA.remove p1 []).items_dict (lineKeyOf p1 []) = false ∧
     (cartA.remove p1 []).session.modified = true ∧
     (cartA.remove p1 []).session.lookup cartA.session_key =
       some (cartA.remove p1 []).cart_serializable) :=
  ⟨rfl, (remove_deletes_or_noop cartA p1 []).1 rfl⟩

/-- C8: the invariant that every line present in the mapping has quantity at
least 1 is preserved from any dict-valid state by add, remove, remove_single
as coded (which never returns normally), the name-corrected remove_single
(which deletes the line rather than store quantity 0), and clear. -/
theorem qty_invariant_preserved (c : Cart) (hinv : QtyInv c)
    (hnd : (c.items_dict.map Prod.fst).Nodup) :
    (∀ p pr q kargs c', c.add p pr q kargs = .ok c' → QtyInv c') ∧
    (∀ p kargs, QtyInv (c.remove p kargs)) ∧
    (∀ p kargs c', c.remove_single p kargs = .ok c' → QtyInv c') ∧
    (∀ p kargs, QtyInv (c.remove_single_fixed p kargs)) ∧
    QtyInv c.clear := by
  refine ⟨?_, ?_, ?_, ?_, ?_⟩
  · intro p pr q kargs c' h
    by_cases h1 : q < 1
    · simp only [Cart.add, if_pos h1] at h
      cases h
    · by_cases h2 : pyDictHasKey c.items_dict (lineKeyOf p kargs) = true
      · simp only [Cart.add, if_neg h1, h2, if_true] at h
        injection h with h3
        rw [← h3]
        intro kv hm
        rcases List.mem_map.mp hm with ⟨orig, horig, heq⟩
        by_cases hko : orig.1 = lineKeyOf p kargs
        · rw [if_pos hko] at heq
          rw [← heq]
          have := hinv orig horig
          simp only
          omega
        · rw [if_neg hko] at heq
          rw [← heq]
          exact hinv orig horig
      · have h2f : pyDictHasKey c.items_dict (lineKeyOf p kargs) = false := by
          simpa using h2
        cases pr with
        | none =>
          simp only [Cart.add, if_neg h1, h2f, Bool.false_eq_true, if_false] at h
          cases h
        | some pv =>
          simp only [Cart.add, if_neg h1, h2f, Bool.false_eq_true, if_false] at h
          injection h with h3
          rw [← h3]
          intro kv hm
          rcases List.mem_append.mp hm with hold | hnew
          · exact hinv kv hold
          · rcases List.mem_singleton.mp hnew with rfl
            show (1 : Int) ≤ q
            omega
  · intro p kargs
    by_cases h2 : pyDictHasKey c.items_dict (lineKeyOf p kargs) = true
    · simp only [Cart.remove, h2, if_true]
      intro kv hm
      exact hinv kv (List.mem_of_mem_filter hm)
    · simp only [Cart.remove, h2, Bool.false_eq_true, if_false]
      exact hinv
  · intro p kargs c' h
    cases h
  · intro p kargs
    cases hg : pyDictGet c.items_dict (lineKeyOf p kargs) with
    | none =>
      simp only [Cart.remove_single_fixed, hg]
      exact hinv
    | some it =>
      by_cases hq1 : it.quantity ≤ 1
      · simp only [Cart.remove_single_fixed, hg, if_pos hq1]
        intro kv hm
        exact hinv kv (List.mem_of_mem_filter hm)
      · simp only [Cart.remove_single_fixed, hg, if_neg hq1]
        intro kv hm
        rcases List.mem_map.mp hm with ⟨orig, horig, heq⟩
        by_cases hko : orig.1 = lineKeyOf p kargs
        · rw [if_pos hko] at heq
          rw [← heq]
          have hsame : orig.2 = it := by
            have h1 : pyDictGet c.items_dict (lineKeyOf p kargs) =
                some orig.2 := by
              have : (orig.1, orig.2) ∈ c.items_dict := by simpa using horig
              rw [hko] at this
              exact pyDictGet_eq_of_mem_nodup hnd this
            rw [h1] at hg
            injection hg
          simp only
          rw [hsame]
          omega
        · rw [if_neg hko] at heq
          rw [← heq]
          exact hinv orig horig
  · intro kv hm
    cases hm

theorem pyDictSet_eq_append {κ ν : Type} [DecidableEq κ] {d : List (κ × ν)}
    {k : κ} {v : ν} (h : pyDictHasKey d k = false) :
    pyDictSet d k v = d ++ [(k, v)] := by
  rw [pyDictHasKey] at h
  rw [pyDictSet, if_neg]
  simp [h]

theorem foldl_pyDictSet_append {κ ν : Type} [DecidableEq κ]
    (l : List (κ × ν)) : ∀ acc : List (κ × ν),
    ((acc ++ l).map Prod.fst).Nodup →
    l.foldl (fun d kv => pyDictSet d kv.1 kv.2) acc = acc ++ l := by
  induction l with
  | nil => intro acc h; simp
  | cons kv rest ih =>
    intro acc h
    have hnotin : kv.1 ∉ acc.map Prod.fst := by
      rw [List.map_append] at h
      have hd := (List.nodup_append.mp h).2.2
      intro hm
      exact hd hm (by simp)
    have hset : pyDictSet acc kv.1 kv.2 = acc ++ [kv] := by
      have := pyDictSet_eq_append (d := acc) (k := kv.1) (v := kv.2)
        (pyDictHasKey_false_iff.mpr hnotin)
      simpa using this
    rw [List.foldl_cons, hset, ih (acc ++ [kv])
      (by rwa [List.append_assoc, List.singleton_append]),
      List.append_assoc, List.singleton_append]

theorem pyDictOfPairs_eq_self {κ ν : Type} [DecidableEq κ]
    (l : List (κ × ν)) (h : (l.map Prod.fst).Nodup) : pyDictOfPairs l = l :=
  foldl_pyDictSet_append l [] (by simpa using h)

theorem keys_pyDictSet_of_hasKey {κ ν : Type} [DecidableEq κ]
    {d : List (κ × ν)} {k : κ} (v : ν) (h : pyDictHasKey d k = true) :
    (pyDictSet d k v).map Prod.fst = d.map Prod.fst := by
  rw [pyDictHasKey] at h
  rw [pyDictSet, if_pos h, List.map_map]
  exact List.map_congr_left (fun kv _ => by dsimp only [Function.comp]; split <;> rfl)

theorem nodup_keys_pyDictSet {κ ν : Type} [DecidableEq κ]
    {d : List (κ × ν)} {k : κ} (v : ν) (h : (d.map Prod.fst).Nodup) :
    ((pyDictSet d k v).map Prod.fst).Nodup := by
  by_cases hk : pyDictHasKey d k = true
  · rw [keys_pyDictSet_of_hasKey v hk]
    exact h
  · rw [pyDictSet_eq_append (by simpa using hk), List.map_append]
    rw [List.nodup_append]
    refine ⟨h, by simp, ?_⟩
    intro a ha hb
    rcases List.mem_singleton.mp (by simpa using hb) with rfl
    exact (pyDictHasKey_false_iff.mp (by simpa using hk)) ha

theorem mem_pyDictSet_self {κ ν : Type} [DecidableEq κ]
    (d : List (κ × ν)) (k : κ) (v : ν) : (k, v) ∈ pyDictSet d k v := by
  by_cases hk : pyDictHasKey d k = true
  · rw [pyDictHasKey, List.any_eq_true] at hk
    rcases hk with ⟨kv, hkv, he⟩
    have hc : (d.any fun x => decide (x.1 = k)) = true :=
      List.any_eq_true.mpr ⟨kv, hkv, he⟩
    rw [pyDictSet, if_pos hc]
    refine List.mem_map.mpr ⟨kv, hkv, ?_⟩
    have he2 : kv.1 = k := by simpa using he
    rw [if_pos he2, he2]
  · rw [pyDictSet_eq_append (by simpa using hk)]
    exact List.mem_append.mpr (Or.inr (by simp))

theorem mem_keys_pyDictSet {κ ν : Type} [DecidableEq κ]
    {d : List (κ × ν)} {k a : κ} {v : ν}
    (h : a ∈ (pyDictSet d k v).map Prod.fst) :
    a ∈ d.map Prod.fst ∨ a = k := by
  by_cases hk : pyDictHasKey d k = true
  · rw [keys_pyDictSet_of_hasKey v hk] at h
    exact Or.inl h
  · rw [pyDictSet_eq_append (by simpa using hk), List.map_append] at h
    rcases List.mem_append.mp h with h1 | h2
    · exact Or.inl h1
    · exact Or.inr (by simpa using h2)

theorem updItemAttr_keeps (acc : CartItem) (kv : String × PyVal)
    (hq : ¬ kv.1 = "quantity") (hp : ¬ kv.1 = "price") :
    updItemAttr acc kv = { acc with extra := pyDictSet acc.extra kv.1 kv.2 } := by
  obtain ⟨a, v⟩ := kv
  simp only at hq hp
  unfold updItemAttr
  split <;> simp_all

theorem dictUpdateItem_keeps (key : KeyDict) : ∀ it : CartItem,
    (∀ a ∈ key.map Prod.fst, ¬ a = "quantity" ∧ ¬ a = "price") →
    (dictUpdateItem it key).quantity = it.quantity ∧
    (dictUpdateItem it key).price = it.price := by
  induction key with
  | nil => exact fun it _ => ⟨rfl, rfl⟩
  | cons kv rest ih =>
    intro it h
    obtain ⟨hq, hp⟩ := h kv.1 (by simp)
    have hstep : dictUpdateItem it (kv :: rest) =
        dictUpdateItem (updItemAttr it kv) rest := rfl
    rw [hstep, updItemAttr_keeps it kv hq hp]
    exact ih _ (fun a ha => h a (by simp [ha]))

theorem strOr_jsonArr (rs : List SRecord) (d : StoredText) :
    strOr (.jsonArr rs) d = .jsonArr rs := by
  rw [strOr, if_neg]
  simp

theorem collectPks_of_wf (d : List (LineKey × CartItem))
    (h : ∀ kv ∈ d, (kv.1.map Prod.fst).Nodup ∧
      ∃ i : Int, ("_pk", PyVal.intV i) ∈ kv.1) :
    ∃ ids, collectPks (d.map
        (fun kv => ({ key := kv.1, value := loadsVRecord kv.2.to_dict } : SRecord))) = some ids ∧
      ∀ kv ∈ d, ∀ i : Int, ("_pk", PyVal.intV i) ∈ kv.1 → PyVal.intV i ∈ ids := by
  induction d with
  | nil => exact ⟨[], rfl, by simp⟩
  | cons kv rest ih =>
    obtain ⟨hnd, i0, hi0⟩ := h kv (by simp)
    have hpk : recPk? { key := kv.1, value := loadsVRecord kv.2.to_dict } =
        some (PyVal.intV i0) := pyDictGet_eq_of_mem_nodup hnd hi0
    obtain ⟨ids, hids, hprop⟩ := ih (fun x hx => h x (by simp [hx]))
    refine ⟨PyVal.intV i0 :: ids, ?_, ?_⟩
    · simp only [List.map_cons, collectPks, hpk, hids]
    · intro x hx i hi
      rcases List.mem_cons.mp hx with he | ht
      · subst he
        have h1 : pyDictGet x.1 "_pk" = some (PyVal.intV i) :=
          pyDictGet_eq_of_mem_nodup hnd hi
        have h2 : PyVal.intV i = PyVal.intV i0 := by
          have := hpk
          rw [recPk?] at this
          rw [h1] at this
          injection this
        rw [h2]
        exact List.mem_cons_self _ _
      · exact List.mem_cons_of_mem _ (hprop x ht i hi)

theorem loadItems_view (qs : List Product) (d : List (LineKey × CartItem)) :
    ∀ acc : List (LineKey × CartItem),
    (∀ kv ∈ d,
      List.Sorted pairLE kv.1 ∧
      (kv.1.map Prod.fst).Nodup ∧
      (∀ a ∈ kv.1.map Prod.fst, ¬ a = "quantity" ∧ ¬ a = "price") ∧
      ∃ i : Int, ("_pk", PyVal.intV i) ∈ kv.1 ∧ ∃ p ∈ qs, p.pk = i) →
    ((acc ++ d).map Prod.fst).Nodup →
    (loadItems qs (d.map
        (fun kv => ({ key := kv.1, value := loadsVRecord kv.2.to_dict } : SRecord))) acc).map
          lineView =
      acc.map lineView ++ d.map loadedLineView := by
  induction d with
  | nil => intro acc _ _; simp [loadItems]
  | cons kv rest ih =>
    intro acc hwf hnd
    obtain ⟨hsort, hndk, hres, i0, hi0, p0, hp0, hpk0⟩ := hwf kv (by simp)
    have hpk : recPk? { key := kv.1, value := loadsVRecord kv.2.to_dict } =
        some (PyVal.intV i0) := pyDictGet_eq_of_mem_nodup hndk hi0
    have hmem : PyVal.intV i0 ∈ qs.map (fun p => PyVal.intV p.pk) :=
      List.mem_map.mpr ⟨p0, hp0, by rw [hpk0]⟩
    have hfind : ∃ pf, qs.find?
        (fun p => PyVal.intV p.pk = PyVal.intV i0) = some pf := by
      cases hf : qs.find? (fun p => PyVal.intV p.pk = PyVal.intV i0) with
      | none =>
        exfalso
        have := List.find?_eq_none.mp hf p0 hp0
        simp [hpk0] at this
      | some pf => exact ⟨pf, rfl⟩
    obtain ⟨pf, hfind⟩ := hfind
    have hstep : loadItems qs ((kv :: rest).map
        (fun x => ({ key := x.1, value := loadsVRecord x.2.to_dict } : SRecord))) acc =
        loadItems qs (rest.map
          (fun x => ({ key := x.1, value := loadsVRecord x.2.to_dict } : SRecord)))
          (pyDictSet acc (_dict2key kv.1)
            (mkLoadedItem pf { key := kv.1, value := loadsVRecord kv.2.to_dict })) := by
      simp only [List.map_cons, loadItems, hpk, hmem, if_pos, hfind]
    have hk2 : _dict2key kv.1 = kv.1 := dict2key_of_sorted kv.1 hsort
    have hkacc : pyDictHasKey acc kv.1 = false := by
      apply pyDictHasKey_false_iff.mpr
      rw [List.map_append, List.nodup_append] at hnd
      intro hm
      exact hnd.2.2 hm (by simp)
    have hsets : pyDictSet acc (_dict2key kv.1)
        (mkLoadedItem pf { key := kv.1, value := loadsVRecord kv.2.to_dict }) =
        acc ++ [(kv.1, mkLoadedItem pf { key := kv.1, value := loadsVRecord kv.2.to_dict })] := by
      rw [hk2]
      exact pyDictSet_eq_append hkacc
    have hview : lineView (kv.1,
        mkLoadedItem pf { key := kv.1, value := loadsVRecord kv.2.to_dict }) =
        loadedLineView kv := by
      obtain ⟨hq, hp⟩ := dictUpdateItem_keeps kv.1
        (CartItem.init pf (loadsVRecord kv.2.to_dict).quantity
          (loadsVRecord kv.2.to_dict).price) hres
      rw [lineView, loadedLineView, mkLoadedItem]
      rw [Prod.mk.injEq]
      refine ⟨rfl, ?_⟩
      rw [Prod.mk.injEq]
      exact ⟨hq, hp⟩
    have hrec := ih (acc ++ [(kv.1,
        mkLoadedItem pf { key := kv.1, value := loadsVRecord kv.2.to_dict })])
      (fun x hx => hwf x (by simp [hx]))
      (by
        rw [List.append_assoc, List.singleton_append]
        have hsame : ((acc ++ (kv.1,
            mkLoadedItem pf { key := kv.1, value := loadsVRecord kv.2.to_dict }) ::
            rest).map Prod.fst) = ((acc ++ kv :: rest).map Prod.fst) := by
          rw [List.map_append, List.map_append, List.map_cons, List.map_cons]
        rw [hsame]
        exact hnd)
    rw [hstep, hsets, hrec]
    simp [hview]

theorem reachable_cartWF (catalog : List Product)
    (lookup : Option (Product → Bool)) (c : Cart)
    (hr : Reachable catalog lookup c) :
    cartWF (get_queryset catalog lookup) c := by
  induction hr with
  | empty s sk => exact ⟨List.nodup_nil, by simp⟩
  | add c c' p pr q kargs hrc hp hkok hok ih =>
    obtain ⟨hnd, hwf⟩ := ih
    by_cases h1 : q < 1
    · simp only [Cart.add, if_pos h1] at hok
      cases hok
    · by_cases h2 : pyDictHasKey c.items_dict (lineKeyOf p kargs) = true
      · simp only [Cart.add, if_neg h1, h2, if_true] at hok
        injection hok with h3
        rw [← h3]
        constructor
        · simp only [update_session_items]
          show ((pyDictMap1 c.items_dict (lineKeyOf p kargs)
            (fun it => { it with quantity := it.quantity + q })).map Prod.fst).Nodup
          rw [keys_pyDictMap1]
          exact hnd
        · intro kv hm
          rcases List.mem_map.mp hm with ⟨orig, horig, heq⟩
          have hfst : kv.1 = orig.1 := by
            rw [← heq]
            split <;> rfl
          rw [hfst]
          exact hwf orig horig
      · have h2f : pyDictHasKey c.items_dict (lineKeyOf p kargs) = false := by
          simpa using h2
        have hkwf : lineKeyWF (get_queryset catalog lookup) (lineKeyOf p kargs) := by
          have hperm := dict2key_perm (pyDictSet kargs "_pk" (PyVal.intV p.pk))
          have hpermf := hperm.map Prod.fst
          refine ⟨dict2key_sorted _, ?_, ?_, p.pk, ?_, ?_⟩
          · exact hpermf.nodup_iff.mpr (nodup_keys_pyDictSet _ hkok.1)
          · intro a ha
            rcases mem_keys_pyDictSet (hpermf.mem_iff.mp ha) with hin | hpk
            · obtain ⟨_, _, hqn⟩ := hkok.2 a hin
              exact ⟨by simpa using hqn, by simpa using (hkok.2 a hin).2.1⟩
            · rw [hpk]
              exact ⟨by decide, by decide⟩
          · exact hperm.mem_iff.mpr (mem_pyDictSet_self kargs "_pk" (PyVal.intV p.pk))
          · exact List.mem_map.mpr ⟨p, hp, rfl⟩
        cases pr with
        | none =>
          simp only [Cart.add, if_neg h1, h2f, Bool.false_eq_true, if_false] at hok
          cases hok
        | some pv =>
          simp only [Cart.add, if_neg h1, h2f, Bool.false_eq_true, if_false] at hok
          injection hok with h3
          rw [← h3]
          constructor
          · simp only [update_session_items]
            show ((c.items_dict ++
              [(lineKeyOf p kargs, CartItem.init p q pv)]).map Prod.fst).Nodup
            rw [List.map_append, List.nodup_append]
            refine ⟨hnd, by simp, ?_⟩
            intro a ha hb
            rcases List.mem_singleton.mp (by simpa using hb) with rfl
            exact (pyDictHasKey_false_iff.mp h2f) ha
          · intro kv hm
            rcases List.mem_append.mp hm with hold | hnew
            · exact hwf kv hold
            · rcases List.mem_singleton.mp hnew with rfl
              exact hkwf
  | remove c p kargs hrc hkok ih =>
    obtain ⟨hnd, hwf⟩ := ih
    by_cases h2 : pyDictHasKey c.items_dict (lineKeyOf p kargs) = true
    · simp only [Cart.remove, h2, if_true]
      constructor
      · simp only [update_session_items]
        show ((pyDictDel c.items_dict (lineKeyOf p kargs)).map Prod.fst).Nodup
        exact ((List.filter_sublist _).map Prod.fst).nodup hnd
      · intro kv hm
        exact hwf kv (List.mem_of_mem_filter hm)
    · simp only [Cart.remove, h2, Bool.false_eq_true, if_false]
      exact ⟨hnd, hwf⟩

/-- C2 (counterexample): with the catalog unchanged throughout, the
round-trip fails on two reachable cart states.  First, a single add of a
product failing the configured lookup filter (product 2 is inactive)
reloads to a cart with a different set of line keys: the line is silently
gone.  Second, a single add of an eligible product at the fractional price
999/100 reloads with a drifted price: the decoder parses 9.99 as the
nearest binary64 float, so the reloaded line view differs. -/
theorem roundtrip_counterexample :
    (c0.add p2 (some 5) 1 [] = .ok cartB2 ∧
     ∃ c', Cart.init (Session.set s0 "CART" cartB2.cart_serializable)
         (some "CART") catalog3 onlyActive = .ok c' ∧
       ¬ (c'.items_dict.map lineView = cartB2.items_dict.map lineView)) ∧
    (c0.add p1 (some (mkRat 999 100)) 1 [] = .ok cartP9 ∧
     ∃ c', Cart.init (Session.set s0 "CART" cartP9.cart_serializable)
         (some "CART") catalog3 onlyActive = .ok c' ∧
       ¬ (c'.items_dict.map lineView = cartP9.items_dict.map lineView)) :=
  ⟨⟨rfl, _, rfl, by decide⟩, ⟨rfl, _, rfl, by decide⟩⟩

/-- C2 (amended): for every cart state reachable from an empty cart via add
and remove operations in which each added product comes from the filtered
catalog queryset, constructing a new Cart from a session holding the
serialized form of that state, with the catalog unchanged, reconstructs the
same sequence of line keys with equal quantities per key; each price
reloads as the decoder's parse of its stored literal (exact for integer
prices, the nearest binary64 float for fractional ones), so prices are
equal whenever that parse recovers them exactly, in particular whenever
every price is an integer. -/
theorem roundtrip_reachable (catalog : List Product)
    (lookup : Option (Product → Bool)) (c : Cart)
    (hr : Reachable catalog lookup c) (s : Session) (sk : String) :
    ∃ c', Cart.init (Session.set s sk c.cart_serializable) (some sk)
        catalog lookup = .ok c' ∧
      c'.items_dict.map (fun kv => (kv.1, kv.2.quantity)) =
        c.items_dict.map (fun kv => (kv.1, kv.2.quantity)) ∧
      c'.items_dict.map lineView = c.items_dict.map loadedLineView ∧
      ((∀ kv ∈ c.items_dict, loadsNum kv.2.price = kv.2.price) →
        c'.items_dict.map lineView = c.items_dict.map lineView) := by
  obtain ⟨hnd, hwf⟩ := reachable_cartWF catalog lookup c hr
  have hser : c.cart_serializable = .jsonArr (c.items_dict.map
      (fun kv => ({ key := kv.1, value := kv.2.to_dict } : SRecord))) := by
    rw [Cart.cart_serializable]
    congr 1
    apply List.map_congr_left
    intro kv hkv
    rw [pyDictOfPairs_eq_self kv.1 (hwf kv hkv).2.1]
  obtain ⟨ids, hids, hprop⟩ := collectPks_of_wf c.items_dict
    (fun kv hkv => ⟨(hwf kv hkv).2.1, by
      obtain ⟨i, hi, _⟩ := (hwf kv hkv).2.2.2
      exact ⟨i, hi⟩⟩)
  have hlook : Session.lookup (Session.set s sk c.cart_serializable) sk =
      some (.jsonArr (c.items_dict.map
        (fun kv => ({ key := kv.1, value := kv.2.to_dict } : SRecord)))) := by
    rw [Session.lookup_set_self, hser]
  have hmaps : (c.items_dict.map
        (fun kv => ({ key := kv.1, value := kv.2.to_dict } : SRecord))).map
          loadsSRecord =
      c.items_dict.map
        (fun kv => ({ key := kv.1, value := loadsVRecord kv.2.to_dict } : SRecord)) := by
    rw [List.map_map]
    rfl
  have hinit : Cart.init (Session.set s sk c.cart_serializable) (some sk)
      catalog lookup = .ok
      { items_dict := loadItems ((get_queryset catalog lookup).filter
          (fun p => decide (PyVal.intV p.pk ∈ ids)))
          (c.items_dict.map
            (fun kv => ({ key := kv.1, value := loadsVRecord kv.2.to_dict } : SRecord))) [],
        session := Session.set s sk c.cart_serializable,
        session_key := sk } := by
    simp only [Cart.init, Option.getD_some, hlook, strOr_jsonArr, sjLoads,
      JsonTop.toList, hmaps, hids]
  have hqs2 : ∀ kv ∈ c.items_dict,
      List.Sorted pairLE kv.1 ∧ (kv.1.map Prod.fst).Nodup ∧
      (∀ a ∈ kv.1.map Prod.fst, ¬ a = "quantity" ∧ ¬ a = "price") ∧
      ∃ i : Int, ("_pk", PyVal.intV i) ∈ kv.1 ∧
        ∃ p ∈ (get_queryset catalog lookup).filter
          (fun p => decide (PyVal.intV p.pk ∈ ids)), p.pk = i := by
    intro kv hkv
    obtain ⟨hs, hn, hre, i, hi, hiq⟩ := hwf kv hkv
    refine ⟨hs, hn, hre, i, hi, ?_⟩
    obtain ⟨p, hp, hpkeq⟩ := List.mem_map.mp hiq
    refine ⟨p, List.mem_filter.mpr ⟨hp, ?_⟩, hpkeq⟩
    simp only [decide_eq_true_eq]
    rw [hpkeq]
    exact hprop kv hkv i hi
  have hview := loadItems_view ((get_queryset catalog lookup).filter
      (fun p => decide (PyVal.intV p.pk ∈ ids))) c.items_dict [] hqs2
    (by simpa using hnd)
  have hviewEq : (loadItems ((get_queryset catalog lookup).filter
      (fun p => decide (PyVal.intV p.pk ∈ ids)))
      (c.items_dict.map
        (fun kv => ({ key := kv.1, value := loadsVRecord kv.2.to_dict } : SRecord))) []).map lineView =
      c.items_dict.map loadedLineView := by
    simpa using hview
  refine ⟨_, hinit, ?_, hviewEq, ?_⟩
  · have hkq := congrArg
      (List.map (fun t : LineKey × Int × Rat => (t.1, t.2.1))) hviewEq
    rw [List.map_map, List.map_map] at hkq
    exact hkq
  · intro hpr
    have hsame : c.items_dict.map loadedLineView =
        c.items_dict.map lineView := by
      apply List.map_congr_left
      intro kv hkv
      rw [loadedLineView, lineView, hpr kv hkv]
    exact hviewEq.trans hsame

theorem roundtrip_reachable_witness :
    ∃ c', Cart.init (Session.set s0 "CART" cartA.cart_serializable)
        (some "CART") catalog3 onlyActive = .ok c' ∧
      c'.items_dict.map (fun kv => (kv.1, kv.2.quantity)) =
        cartA.items_dict.map (fun kv => (kv.1, kv.2.quantity)) ∧
      c'.items_dict.map lineView = cartA.items_dict.map loadedLineView ∧
      ((∀ kv ∈ cartA.items_dict, loadsNum kv.2.price = kv.2.price) →
        c'.items_dict.map lineView = cartA.items_dict.map lineView) :=
  roundtrip_reachable catalog3 onlyActive cartA
    (Reachable.add c0 cartA p1 (some 10) 2 [] (Reachable.empty s0 "CART")
      (by decide)
      ⟨List.nodup_nil, fun a ha => absurd ha (List.not_mem_nil a)⟩
      rfl)
    s0 "CART"

theorem qty_invariant_preserved_witness :
    QtyInv cartA ∧ (cartA.items_dict.map Prod.fst).Nodup ∧
    QtyInv (cartA.remove p3 []) :=
  ⟨by decide, by decide,
   (qty_invariant_preserved cartA (by decide) (by decide)).2.1 p3 []⟩

end Carton
